import Mathlib

/-!
Verification of the edit-history / session state machine of the
Nano-Banana-Monster photo editor.

The development shallowly embeds the state-bearing logic of the application:

* the linear undo/redo history (`updateHistory`, `handleUndo`, `handleRedo`
  in `src/App.tsx`),
* the usage-credit accounting of the single-image handlers
  (`deductCredit`, `handleApplyFilter`, `handleApplyRetouch` in `src/App.tsx`),
* the batch runner (`BatchEditor.handleApply` in the batch editor component),
* the geometry encoding of the remote edit gateway
  (`generateEditedImage` in `src/services/geminiService.ts`),
* the text-shadow rendering dispatch (`applyTextToCanvas` in `src/App.tsx`),
* the voice-command validation step (`interpretVoiceCommand` in
  `src/services/geminiService.ts`), and
* the upload gate (`resetAndLoadImage` in `src/App.tsx`).

JavaScript numbers holding indices, lengths and credits are modelled as `Int`
(the code only ever produces integral values for them); image `File` objects
are modelled as the opaque record `ImageFile`.  Remote calls are modelled by
an `Outcome` parameter: the embedding of an async handler takes the outcome
of its single remote call as an explicit argument and returns the successor
state together with the ordered list of observable events (credit deductions
and remote dispatches) the handler performed.
-/

namespace NanoBanana

/-- Opaque model of a browser `File`: a display name plus a MIME type.
The byte payload is irrelevant to every property proved here, so it is not
carried around. -/
structure ImageFile where
  name : String
  mime : String
deriving DecidableEq, Repr

/-- Result of one remote (or local-encode) step of an async handler:
the awaited call either resolves to a fresh image or throws with a raw
error message. -/
inductive Outcome (α : Type) where
  | success (img : α)
  | failure (err : String)
deriving DecidableEq, Repr

/-! ### Edit history (`src/App.tsx`)

`history : File[]` and `historyIndex : number` from the `App` component.
The cursor is an `Int` because the source initializes `historyIndex` to `-1`
before any image is loaded. -/

structure HistoryState (α : Type) where
  entries : List α
  cursor : Int
deriving DecidableEq, Repr

/-- `updateHistory` from `src/App.tsx`:
`const newHistory = history.slice(0, historyIndex + 1); newHistory.push(newImage);
setHistory(newHistory); setHistoryIndex(newHistory.length - 1);`
(`slice(0, k)` on a list is `take k` with the clamping behaviour of both
matching; `k.toNat` realizes the clamp of a negative bound to `0`). -/
def updateHistory {α : Type} (img : α) (s : HistoryState α) : HistoryState α :=
  let newHistory := s.entries.take (s.cursor + 1).toNat ++ [img]
  { entries := newHistory, cursor := (newHistory.length : Int) - 1 }

/-- `handleUndo` from `src/App.tsx`: `if (historyIndex > 0) setHistoryIndex(historyIndex - 1)`. -/
def handleUndo {α : Type} (s : HistoryState α) : HistoryState α :=
  if 0 < s.cursor then { s with cursor := s.cursor - 1 } else s

/-- `handleRedo` from `src/App.tsx`:
`if (historyIndex < history.length - 1) setHistoryIndex(historyIndex + 1)`. -/
def handleRedo {α : Type} (s : HistoryState α) : HistoryState α :=
  if s.cursor < (s.entries.length : Int) - 1 then { s with cursor := s.cursor + 1 } else s

/-- `currentImage = history[historyIndex]` from `src/App.tsx`; indexing out of
range yields `undefined`, modelled as `none`. -/
def current {α : Type} (s : HistoryState α) : Option α :=
  if s.cursor < 0 then none else s.entries[s.cursor.toNat]?

/-- The documented invariant of the history component:
`0 <= cursor < len(entries)` (which forces `entries` to be non-empty). -/
def HistoryInv {α : Type} (s : HistoryState α) : Prop :=
  0 ≤ s.cursor ∧ s.cursor < (s.entries.length : Int)

instance {α : Type} (s : HistoryState α) : Decidable (HistoryInv s) := by
  unfold HistoryInv; infer_instance

/-- A user-dispatched history operation. -/
inductive HOp (α : Type) where
  | append (img : α)
  | undo
  | redo
deriving DecidableEq, Repr

def applyHOp {α : Type} (op : HOp α) (s : HistoryState α) : HistoryState α :=
  match op with
  | .append img => updateHistory img s
  | .undo => handleUndo s
  | .redo => handleRedo s

def applyHOps {α : Type} (ops : List (HOp α)) (s : HistoryState α) : HistoryState α :=
  ops.foldl (fun t op => applyHOp op t) s

/-! Invariant preservation lemmas for the history operations. -/

theorem historyInv_updateHistory {α : Type} (img : α) (s : HistoryState α) :
    HistoryInv (updateHistory img s) := by
  unfold HistoryInv updateHistory
  simp

theorem historyInv_handleUndo {α : Type} (s : HistoryState α) (h : HistoryInv s) :
    HistoryInv (handleUndo s) := by
  obtain ⟨h1, h2⟩ := h
  by_cases hc : 0 < s.cursor
  · rw [handleUndo, if_pos hc]
    show 0 ≤ s.cursor - 1 ∧ s.cursor - 1 < (s.entries.length : Int)
    omega
  · rw [handleUndo, if_neg hc]
    exact ⟨h1, h2⟩

theorem historyInv_handleRedo {α : Type} (s : HistoryState α) (h : HistoryInv s) :
    HistoryInv (handleRedo s) := by
  obtain ⟨h1, h2⟩ := h
  by_cases hc : s.cursor < (s.entries.length : Int) - 1
  · rw [handleRedo, if_pos hc]
    show 0 ≤ s.cursor + 1 ∧ s.cursor + 1 < (s.entries.length : Int)
    omega
  · rw [handleRedo, if_neg hc]
    exact ⟨h1, h2⟩

theorem historyInv_applyHOp {α : Type} (op : HOp α) (s : HistoryState α) (h : HistoryInv s) :
    HistoryInv (applyHOp op s) := by
  cases op with
  | append img => exact historyInv_updateHistory img s
  | undo => exact historyInv_handleUndo s h
  | redo => exact historyInv_handleRedo s h

theorem historyInv_applyHOps {α : Type} (ops : List (HOp α)) (s : HistoryState α)
    (h : HistoryInv s) : HistoryInv (applyHOps ops s) := by
  induction ops generalizing s with
  | nil => exact h
  | cons op rest ih =>
      unfold applyHOps
      rw [List.foldl_cons]
      exact ih (applyHOp op s) (historyInv_applyHOp op s h)

/-- **C2.** Starting from a history satisfying `0 ≤ cursor < len(entries)`
(in particular non-empty), every sequence of `append`/`undo`/`redo`
operations keeps the cursor within `[0, len(entries)-1]` (stated both for a
single operation and for an arbitrary sequence); `undo` at `cursor = 0` and
`redo` at `cursor = len(entries) - 1` leave the state unchanged. -/
theorem history_cursor_invariant {α : Type} (s : HistoryState α) (ops : List (HOp α))
    (h : HistoryInv s) :
    (∀ op : HOp α, HistoryInv (applyHOp op s)) ∧
    HistoryInv (applyHOps ops s) ∧
    (s.cursor = 0 → handleUndo s = s) ∧
    (s.cursor = (s.entries.length : Int) - 1 → handleRedo s = s) := by
  refine ⟨fun op => historyInv_applyHOp op s h, historyInv_applyHOps ops s h, ?_, ?_⟩
  · intro h0
    unfold handleUndo
    rw [if_neg (by omega)]
  · intro hl
    unfold handleRedo
    rw [if_neg (by omega)]

/-- Witness for `history_cursor_invariant` at a concrete one-entry history and
the operation sequence append, undo, redo. -/
theorem history_cursor_invariant_witness :
    let f0 : ImageFile := ⟨"original.png", "image/png"⟩
    let f1 : ImageFile := ⟨"edited.png", "image/png"⟩
    let s0 : HistoryState ImageFile := ⟨[f0], 0⟩
    (∀ op : HOp ImageFile, HistoryInv (applyHOp op s0)) ∧
    HistoryInv (applyHOps [HOp.append f1, HOp.undo, HOp.redo] s0) ∧
    (s0.cursor = 0 → handleUndo s0 = s0) ∧
    (s0.cursor = ((s0.entries.length : Int) - 1) → handleRedo s0 = s0) :=
  history_cursor_invariant _ _ (by decide)

/-- Under the invariant, the truncated prefix `history.slice(0, historyIndex + 1)`
has exactly `cursor + 1` elements. -/
theorem take_cursor_length {α : Type} (s : HistoryState α) (h : HistoryInv s) :
    (s.entries.take (s.cursor + 1).toNat).length = s.cursor.toNat + 1 := by
  obtain ⟨h1, h2⟩ := h
  rw [List.length_take]
  omega

/-- Explicit form of one `updateHistory` step under the invariant. -/
theorem updateHistory_eq {α : Type} (img : α) (s : HistoryState α) (h : HistoryInv s) :
    updateHistory img s =
      { entries := s.entries.take (s.cursor.toNat + 1) ++ [img],
        cursor := s.cursor + 1 } := by
  obtain ⟨h1, h2⟩ := h
  have htn : (s.cursor + 1).toNat = s.cursor.toNat + 1 := by omega
  simp only [updateHistory, htn]
  congr 1
  rw [List.length_append, List.length_take]
  simp only [List.length_cons, List.length_nil]
  push_cast
  omega

/-- The composite step `append(X); undo(); append(Y)` rewrites the history to
the truncated prefix followed by `Y`; in particular `X` is dropped. -/
theorem take_len_concat {α : Type} (l : List α) (x : α) (n : Nat) (h : l.length = n) :
    (l ++ [x]).take n = l := by
  rw [← h, List.take_left]

theorem seq_append_undo_append {α : Type} (s : HistoryState α) (X Y : α) (h : HistoryInv s) :
    updateHistory Y (handleUndo (updateHistory X s)) =
      { entries := s.entries.take (s.cursor.toNat + 1) ++ [Y], cursor := s.cursor + 1 } := by
  obtain ⟨h1, h2⟩ := h
  have ht : (s.entries.take (s.cursor.toNat + 1)).length = s.cursor.toNat + 1 := by
    rw [List.length_take]; omega
  rw [updateHistory_eq X s ⟨h1, h2⟩]
  have hu : handleUndo
        ({ entries := s.entries.take (s.cursor.toNat + 1) ++ [X], cursor := s.cursor + 1 } :
          HistoryState α) =
      { entries := s.entries.take (s.cursor.toNat + 1) ++ [X], cursor := s.cursor } := by
    rw [handleUndo, if_pos (show (0 : Int) < s.cursor + 1 by omega)]
    show ({ entries := s.entries.take (s.cursor.toNat + 1) ++ [X], cursor := s.cursor + 1 - 1 } :
        HistoryState α) = _
    congr 1
    omega
  rw [hu]
  have hinv2 : HistoryInv
      ({ entries := s.entries.take (s.cursor.toNat + 1) ++ [X], cursor := s.cursor } :
        HistoryState α) := by
    refine ⟨h1, ?_⟩
    show s.cursor < ((s.entries.take (s.cursor.toNat + 1) ++ [X]).length : Int)
    rw [List.length_append, ht]
    simp only [List.length_cons, List.length_nil]
    omega
  rw [updateHistory_eq Y _ hinv2]
  show HistoryState.mk
      ((s.entries.take (s.cursor.toNat + 1) ++ [X]).take (s.cursor.toNat + 1) ++ [Y])
      (s.cursor + 1) = _
  rw [take_len_concat _ X _ ht]

/-- **C1.** Appending with the cursor strictly before the last index truncates
the entries after the cursor, pushes the new image, and moves the cursor to
the new last index.  Consequently `append(X); undo(); append(Y)` yields a
history whose entries are the old prefix followed by `Y` (so the appended `X`
is dropped and no longer reachable), on which `redo()` is a no-op and
`current()` is `Y`. -/
theorem append_truncates_redo_branch {α : Type} (s : HistoryState α) (X Y : α)
    (h : HistoryInv s) :
    (∀ img : α, s.cursor < (s.entries.length : Int) - 1 →
       (updateHistory img s).entries = s.entries.take (s.cursor.toNat + 1) ++ [img] ∧
       (updateHistory img s).cursor = ((updateHistory img s).entries.length : Int) - 1) ∧
    handleRedo (updateHistory Y (handleUndo (updateHistory X s)))
        = updateHistory Y (handleUndo (updateHistory X s)) ∧
    current (updateHistory Y (handleUndo (updateHistory X s))) = some Y ∧
    (updateHistory Y (handleUndo (updateHistory X s))).entries
        = s.entries.take (s.cursor.toNat + 1) ++ [Y] := by
  obtain ⟨h1, h2⟩ := h
  have ht : (s.entries.take (s.cursor.toNat + 1)).length = s.cursor.toNat + 1 := by
    rw [List.length_take]; omega
  have hseq := seq_append_undo_append s X Y ⟨h1, h2⟩
  refine ⟨?_, ?_, ?_, ?_⟩
  · intro img _
    rw [updateHistory_eq img s ⟨h1, h2⟩]
    refine ⟨rfl, ?_⟩
    show s.cursor + 1 = ((s.entries.take (s.cursor.toNat + 1) ++ [img]).length : Int) - 1
    rw [List.length_append, ht]
    simp only [List.length_cons, List.length_nil]
    omega
  · rw [hseq, handleRedo, if_neg]
    show ¬(s.cursor + 1 < ((s.entries.take (s.cursor.toNat + 1) ++ [Y]).length : Int) - 1)
    rw [List.length_append, ht]
    simp only [List.length_cons, List.length_nil]
    omega
  · rw [hseq, current]
    rw [if_neg (show ¬(s.cursor + 1 < 0) by omega)]
    show (s.entries.take (s.cursor.toNat + 1) ++ [Y])[(s.cursor + 1).toNat]? = some Y
    have hidx : (s.cursor + 1).toNat = (s.entries.take (s.cursor.toNat + 1)).length := by
      rw [ht]; omega
    rw [hidx, List.getElem?_append_right (Nat.le_refl _)]
    simp
  · rw [hseq]

def sampleA : ImageFile := ⟨"a.png", "image/png"⟩
def sampleB : ImageFile := ⟨"b.png", "image/png"⟩
def sampleX : ImageFile := ⟨"x.png", "image/png"⟩
def sampleY : ImageFile := ⟨"y.png", "image/png"⟩
def sampleHistory : HistoryState ImageFile := ⟨[sampleA, sampleB], 0⟩

/-- Witness for `append_truncates_redo_branch` at a concrete two-entry history
with the cursor on the first entry. -/
theorem append_truncates_redo_branch_witness :
    ((updateHistory sampleX sampleHistory).entries
        = sampleHistory.entries.take (sampleHistory.cursor.toNat + 1) ++ [sampleX] ∧
     (updateHistory sampleX sampleHistory).cursor
        = ((updateHistory sampleX sampleHistory).entries.length : Int) - 1) ∧
    handleRedo (updateHistory sampleY (handleUndo (updateHistory sampleX sampleHistory)))
        = updateHistory sampleY (handleUndo (updateHistory sampleX sampleHistory)) ∧
    current (updateHistory sampleY (handleUndo (updateHistory sampleX sampleHistory)))
        = some sampleY ∧
    (updateHistory sampleY (handleUndo (updateHistory sampleX sampleHistory))).entries
        = sampleHistory.entries.take (sampleHistory.cursor.toNat + 1) ++ [sampleY] :=
  ⟨(append_truncates_redo_branch sampleHistory sampleX sampleY (by decide)).1 sampleX (by decide),
   (append_truncates_redo_branch sampleHistory sampleX sampleY (by decide)).2⟩

/-! ### Single-image session state and credit accounting (`src/App.tsx`)

`credits`, `history`/`historyIndex` and `error` from the `App` component.
The async handlers (`handleApplyFilter`, `handleApplyRetouch`, ...) are
embedded as functions from the outcome of their one remote call to the
successor state, paired with the ordered list of observable events the
handler performs: `SEvent.deduct n` for a call to `deductCredit`/
`deductCredits` and `SEvent.dispatch` for the remote call itself. -/

structure AppSingleState where
  credits : Int
  history : HistoryState ImageFile
  errorMsg : Option String
deriving DecidableEq, Repr

/-- Observable events of a single-image handler, in program order. -/
inductive SEvent where
  | deduct (n : Int)
  | dispatch
deriving DecidableEq, Repr

/-- `deductCredit` from `src/App.tsx`: `setCredits(prev => Math.max(0, prev - 1))`. -/
def deductCredit (c : Int) : Int := max 0 (c - 1)

/-- `updateHistory` as invoked by the `App` handlers: it also clears the
error banner (`setError(null)` inside `updateHistory`). -/
def appUpdateHistory (img : ImageFile) (s : AppSingleState) : AppSingleState :=
  { s with errorMsg := none, history := updateHistory img s.history }

/-- The out-of-credits banner text (abridged; the exact wording is irrelevant
to every property proved here). -/
def outOfCreditsMsg : String := "You are out of credits."

/-- The missing-input banner of the retouch handler (abridged). -/
def retouchNeedsInputMsg : String :=
  "Please provide a text description or a reference image for the retouch."

/-- `handleApplyFilter` from `src/App.tsx`.  `pem` is `parseErrorMessage`;
`outcome` is the result of `await generateFilteredImage(...)` followed by
`dataURLtoFile` (a throw of either is caught by the same `catch`). -/
def handleApplyFilter (pem : String → String) (outcome : Outcome ImageFile)
    (s : AppSingleState) : AppSingleState × List SEvent :=
  if s.credits ≤ 0 then
    ({ s with errorMsg := some outOfCreditsMsg }, [])
  else
    match outcome with
    | .success img =>
        (appUpdateHistory img { s with credits := deductCredit s.credits },
         [SEvent.deduct 1, SEvent.dispatch])
    | .failure err =>
        ({ s with credits := deductCredit s.credits, errorMsg := some (pem err) },
         [SEvent.deduct 1, SEvent.dispatch])

/-- `handleApplyRetouch` from `src/App.tsx`.  In addition to the credit gate it
rejects an empty prompt with no reference image before dispatching
(`if (!prompt.trim() && !referenceImage)`). -/
def handleApplyRetouch (pem : String → String) (prompt : String) (hasReference : Bool)
    (outcome : Outcome ImageFile) (s : AppSingleState) : AppSingleState × List SEvent :=
  if s.credits ≤ 0 then
    ({ s with errorMsg := some outOfCreditsMsg }, [])
  else if prompt.trim = "" ∧ hasReference = false then
    ({ s with errorMsg := some retouchNeedsInputMsg }, [])
  else
    match outcome with
    | .success img =>
        (appUpdateHistory img { s with credits := deductCredit s.credits },
         [SEvent.deduct 1, SEvent.dispatch])
    | .failure err =>
        ({ s with credits := deductCredit s.credits, errorMsg := some (pem err) },
         [SEvent.deduct 1, SEvent.dispatch])

/-- **C3.** For a single-image billable operation (modelled on
`handleApplyFilter`) started with `credits = N ≥ 1`: exactly one credit is
deducted and the deduction event precedes the dispatch event; the counter is
`N - 1` afterwards whether the remote call succeeds or fails; the counter
never becomes negative; and with `credits = 0` the handler aborts with no
deduction and no dispatch. -/
theorem credit_deducted_before_dispatch (pem : String → String)
    (outcome : Outcome ImageFile) (s : AppSingleState) :
    (1 ≤ s.credits →
       (handleApplyFilter pem outcome s).1.credits = s.credits - 1 ∧
       (handleApplyFilter pem outcome s).2 = [SEvent.deduct 1, SEvent.dispatch]) ∧
    (0 ≤ s.credits → 0 ≤ (handleApplyFilter pem outcome s).1.credits) ∧
    (s.credits = 0 →
       (handleApplyFilter pem outcome s).2 = [] ∧
       (handleApplyFilter pem outcome s).1.credits = s.credits) := by
  unfold handleApplyFilter deductCredit appUpdateHistory
  refine ⟨?_, ?_, ?_⟩
  · intro h1
    rw [if_neg (by omega)]
    cases outcome
    · exact ⟨by show max 0 (s.credits - 1) = s.credits - 1; omega, rfl⟩
    · exact ⟨by show max 0 (s.credits - 1) = s.credits - 1; omega, rfl⟩
  · intro h0
    by_cases hz : s.credits ≤ 0
    · rw [if_pos hz]; exact h0
    · rw [if_neg hz]
      cases outcome
      · exact le_max_left 0 (s.credits - 1)
      · exact le_max_left 0 (s.credits - 1)
  · intro hz
    rw [if_pos (by omega)]
    exact ⟨rfl, rfl⟩

/-- Witness for `credit_deducted_before_dispatch`: a failed filter call
starting from 5 credits ends with 4 credits, deducted before dispatch. -/
theorem credit_deducted_before_dispatch_witness :
    (handleApplyFilter id (Outcome.failure "network error")
        ⟨5, sampleHistory, none⟩).1.credits = 5 - 1 ∧
    (handleApplyFilter id (Outcome.failure "network error")
        ⟨5, sampleHistory, none⟩).2 = [SEvent.deduct 1, SEvent.dispatch] :=
  (credit_deducted_before_dispatch id (Outcome.failure "network error")
    ⟨5, sampleHistory, none⟩).1 (by decide)

/-- **C6.** In single-image mode a failing remote call (or failing local
encode — both land in the same `catch`) leaves the edit history exactly as it
was before the operation, for both the filter handler and the retouch
handler; when the call was actually dispatched, the only user-visible effect
besides the credit is the error banner. -/
theorem failure_leaves_history_untouched (pem : String → String) (err : String)
    (prompt : String) (hasReference : Bool) (s : AppSingleState) :
    (handleApplyFilter pem (Outcome.failure err) s).1.history = s.history ∧
    (handleApplyRetouch pem prompt hasReference (Outcome.failure err) s).1.history = s.history ∧
    (1 ≤ s.credits →
       (handleApplyFilter pem (Outcome.failure err) s).1.errorMsg = some (pem err)) ∧
    (1 ≤ s.credits → ¬(prompt.trim = "" ∧ hasReference = false) →
       (handleApplyRetouch pem prompt hasReference (Outcome.failure err) s).1.errorMsg
          = some (pem err)) := by
  unfold handleApplyFilter handleApplyRetouch
  refine ⟨?_, ?_, ?_, ?_⟩
  · by_cases hz : s.credits ≤ 0
    · rw [if_pos hz]
    · rw [if_neg hz]
  · by_cases hz : s.credits ≤ 0
    · rw [if_pos hz]
    · rw [if_neg hz]
      by_cases hp : prompt.trim = "" ∧ hasReference = false
      · rw [if_pos hp]
      · rw [if_neg hp]
  · intro h1
    rw [if_neg (by omega)]
  · intro h1 hp
    rw [if_neg (by omega), if_neg hp]

/-- Witness for `failure_leaves_history_untouched`: a failed retouch on a
concrete state keeps the history intact and surfaces the parsed message. -/
theorem failure_leaves_history_untouched_witness :
    (handleApplyFilter id (Outcome.failure "boom") ⟨3, sampleHistory, none⟩).1.history
        = sampleHistory ∧
    (handleApplyRetouch id "remove the lamp" true (Outcome.failure "boom")
        ⟨3, sampleHistory, none⟩).1.history = sampleHistory ∧
    (handleApplyRetouch id "remove the lamp" true (Outcome.failure "boom")
        ⟨3, sampleHistory, none⟩).1.errorMsg = some "boom" :=
  ⟨(failure_leaves_history_untouched id "boom" "remove the lamp" true
      ⟨3, sampleHistory, none⟩).1,
   (failure_leaves_history_untouched id "boom" "remove the lamp" true
      ⟨3, sampleHistory, none⟩).2.1,
   (failure_leaves_history_untouched id "boom" "remove the lamp" true
      ⟨3, sampleHistory, none⟩).2.2.2 (by decide) (by simp)⟩

/-! ### Batch editor (`BatchEditor` component, `src/unnamed/part_005`)

`BatchImage`, the `images` array, the `credits` prop and `isProcessing` flag,
and the sequential `handleApply` runner.  A run is parameterized by the
outcome of the remote call for each item id (`outcome`) and by the
`parseErrorMessage` prop (`pem`). -/

inductive BatchImageStatus where
  | pending
  | processing
  | done
  | error
deriving DecidableEq, Repr

structure BatchImage where
  id : Nat
  original : ImageFile
  processed : Option ImageFile
  status : BatchImageStatus
  error : Option String
deriving DecidableEq, Repr

structure BatchState where
  images : List BatchImage
  credits : Int
  isProcessing : Bool
deriving DecidableEq, Repr

/-- Observable events of a batch run, in program order:
`deduct n` for `onDeductCredits(n)` and `dispatchItem id` for the remote call
made for the item with that id. -/
inductive BEvent where
  | deduct (n : Nat)
  | dispatchItem (id : Nat)
deriving DecidableEq, Repr

/-- The `for (const image of pendingImages)` loop of `handleApply`: each item
is first marked `processing` (by id, via `setImages(prev => prev.map(...))`),
then marked `done` with its processed file or `error` with the parsed message,
depending on the outcome of the awaited service call. -/
def runBatch (outcome : Nat → Outcome ImageFile) (pem : String → String) :
    List BatchImage → List BatchImage → List BatchImage × List BEvent
  | [], imgs => (imgs, [])
  | p :: rest, imgs =>
      let imgs1 := imgs.map fun i =>
        if i.id = p.id then { i with status := BatchImageStatus.processing } else i
      let imgs2 :=
        match outcome p.id with
        | .success f => imgs1.map fun i =>
            if i.id = p.id then { i with status := BatchImageStatus.done, processed := some f }
            else i
        | .failure e => imgs1.map fun i =>
            if i.id = p.id then { i with status := BatchImageStatus.error, error := some (pem e) }
            else i
      let r := runBatch outcome pem rest imgs2
      (r.1, BEvent.dispatchItem p.id :: r.2)

/-- The operation strings for which `handleApply` has a `serviceFunction`
(the cases of its `switch`); these are exactly the strings passed by the
batch panels. -/
def batchServiceOps : List String :=
  ["filter", "adjust", "studio", "colorize", "repair", "colorize_repair", "upscale", "background"]

/-- `BatchEditor.handleApply` from `src/unnamed/part_005`: bail out while a run
is in flight; compute the pending items; bail out if there are none or if
`credits < pendingImages.length`; otherwise deduct the item count up front
(`onDeductCredits(pendingImages.length)` resolves to `setCredits(prev =>
Math.max(0, prev - amount))` in `src/App.tsx`), then process the pending items
sequentially — unless the operation string has no `serviceFunction`, in which
case the `switch`'s `default` returns with no dispatch. -/
def handleApply (op : String) (outcome : Nat → Outcome ImageFile) (pem : String → String)
    (st : BatchState) : BatchState × List BEvent :=
  if st.isProcessing then (st, [])
  else
    let pendingImages := st.images.filter fun i => i.status = BatchImageStatus.pending
    if pendingImages.length = 0 then (st, [])
    else if st.credits < (pendingImages.length : Int) then (st, [])
    else
      let newCredits := max 0 (st.credits - (pendingImages.length : Int))
      if op ∈ batchServiceOps then
        let r := runBatch outcome pem pendingImages st.images
        ({ st with images := r.1, credits := newCredits, isProcessing := false },
         BEvent.deduct pendingImages.length :: r.2)
      else
        ({ st with credits := newCredits, isProcessing := false },
         [BEvent.deduct pendingImages.length])

/-- The terminal record an item that was pending at the start of a run ends up
with: `done` with the processed file on success, `error` with the parsed
message on failure. -/
def finalOf (outcome : Nat → Outcome ImageFile) (pem : String → String)
    (i : BatchImage) : BatchImage :=
  match outcome i.id with
  | .success f => { i with status := BatchImageStatus.done, processed := some f }
  | .failure e => { i with status := BatchImageStatus.error, error := some (pem e) }

theorem finalOf_id (outcome : Nat → Outcome ImageFile) (pem : String → String)
    (i : BatchImage) : (finalOf outcome pem i).id = i.id := by
  unfold finalOf
  cases outcome i.id <;> rfl

theorem finalOf_status (outcome : Nat → Outcome ImageFile) (pem : String → String)
    (i : BatchImage) :
    (finalOf outcome pem i).status = BatchImageStatus.done ∨
    (finalOf outcome pem i).status = BatchImageStatus.error := by
  unfold finalOf
  cases outcome i.id
  · exact Or.inl rfl
  · exact Or.inr rfl

/-- One loop iteration collapses to a single by-id map: marking an item
`processing` and then terminal equals directly replacing it by its terminal
record. -/
theorem runBatch_cons (outcome : Nat → Outcome ImageFile) (pem : String → String)
    (p : BatchImage) (rest imgs : List BatchImage) :
    runBatch outcome pem (p :: rest) imgs =
      ((runBatch outcome pem rest
          (imgs.map fun i => if i.id = p.id then finalOf outcome pem i else i)).1,
       BEvent.dispatchItem p.id ::
         (runBatch outcome pem rest
           (imgs.map fun i => if i.id = p.id then finalOf outcome pem i else i)).2) := by
  cases ho : outcome p.id with
  | success f =>
      simp only [runBatch, ho, List.map_map]
      have hfun : ∀ i ∈ imgs,
          ((fun i => if i.id = p.id then
              { i with status := BatchImageStatus.done, processed := some f } else i) ∘
           (fun i => if i.id = p.id then
              { i with status := BatchImageStatus.processing } else i)) i
            = (fun i => if i.id = p.id then finalOf outcome pem i else i) i := by
        intro i _
        by_cases hid : i.id = p.id
        · simp [Function.comp, finalOf, hid, ho]
        · simp only [Function.comp, if_neg hid]
      rw [List.map_congr_left hfun]
  | failure e =>
      simp only [runBatch, ho, List.map_map]
      have hfun : ∀ i ∈ imgs,
          ((fun i => if i.id = p.id then
              { i with status := BatchImageStatus.error, error := some (pem e) } else i) ∘
           (fun i => if i.id = p.id then
              { i with status := BatchImageStatus.processing } else i)) i
            = (fun i => if i.id = p.id then finalOf outcome pem i else i) i := by
        intro i _
        by_cases hid : i.id = p.id
        · simp [Function.comp, finalOf, hid, ho]
        · simp only [Function.comp, if_neg hid]
      rw [List.map_congr_left hfun]

/-- The events of a batch loop are exactly one dispatch per pending item, in
array order. -/
theorem runBatch_events (outcome : Nat → Outcome ImageFile) (pem : String → String)
    (pending : List BatchImage) : ∀ imgs : List BatchImage,
    (runBatch outcome pem pending imgs).2
      = pending.map fun p => BEvent.dispatchItem p.id := by
  induction pending with
  | nil => intro imgs; rfl
  | cons p rest ih =>
      intro imgs
      rw [runBatch_cons]
      simp only [List.map_cons]
      rw [ih]

/-- Characterization of a complete loop: every image whose value occurs in
the processed `pending` list is replaced by its terminal record, every other
image is untouched.  Requires ids to be unique (they are in the source:
`id = name-index-timestamp` contains the array index). -/
theorem runBatch_result (outcome : Nat → Outcome ImageFile) (pem : String → String) :
    ∀ (pending imgs : List BatchImage),
      (∀ p ∈ pending, p ∈ imgs) →
      (imgs.map fun i => i.id).Nodup →
      (pending.map fun i => i.id).Nodup →
      (runBatch outcome pem pending imgs).1 =
        imgs.map fun i => if i ∈ pending then finalOf outcome pem i else i := by
  intro pending
  induction pending with
  | nil =>
      intro imgs _ _ _
      have : (imgs.map fun i => if i ∈ ([] : List BatchImage) then finalOf outcome pem i else i)
          = imgs.map id := by
        apply List.map_congr_left
        intro i _
        rw [if_neg (List.not_mem_nil i)]
        rfl
      rw [this, List.map_id]
      rfl
  | cons p rest ih =>
      intro imgs hmem hnodupI hnodupP
      rw [runBatch_cons]
      have hpid : p.id ∉ rest.map fun i => i.id := by
        have := hnodupP
        rw [List.map_cons, List.nodup_cons] at this
        exact this.1
      have hrestP : (rest.map fun i => i.id).Nodup := by
        have := hnodupP
        rw [List.map_cons, List.nodup_cons] at this
        exact this.2
      have hupd_id : ∀ i : BatchImage,
          ((fun i => if i.id = p.id then finalOf outcome pem i else i) i).id = i.id := by
        intro i
        show (if i.id = p.id then finalOf outcome pem i else i).id = i.id
        by_cases hid : i.id = p.id
        · rw [if_pos hid, finalOf_id]
        · rw [if_neg hid]
      have hmem' : ∀ q ∈ rest,
          q ∈ imgs.map fun i => if i.id = p.id then finalOf outcome pem i else i := by
        intro q hq
        have hqi : q ∈ imgs := hmem q (List.mem_cons_of_mem p hq)
        have hqid : q.id ≠ p.id := by
          intro hEq
          exact hpid (hEq ▸ List.mem_map_of_mem (fun i => i.id) hq)
        have : (fun i => if i.id = p.id then finalOf outcome pem i else i) q = q :=
          if_neg hqid
        exact this ▸ List.mem_map_of_mem _ hqi
      have hnodupI' :
          ((imgs.map fun i => if i.id = p.id then finalOf outcome pem i else i).map
            fun i => i.id).Nodup := by
        rw [List.map_map]
        have : ((fun i : BatchImage => i.id) ∘
            fun i => if i.id = p.id then finalOf outcome pem i else i) = fun i => i.id := by
          funext i
          exact hupd_id i
        rw [this]
        exact hnodupI
      rw [ih _ hmem' hnodupI' hrestP, List.map_map]
      apply List.map_congr_left
      intro i hi
      show (fun i => if i ∈ rest then finalOf outcome pem i else i)
          ((fun i => if i.id = p.id then finalOf outcome pem i else i) i)
        = if i ∈ p :: rest then finalOf outcome pem i else i
      by_cases hid : i.id = p.id
      · have hip : i = p :=
          List.inj_on_of_nodup_map hnodupI hi (hmem p (List.mem_cons_self p rest)) hid

        have hfin_notin : finalOf outcome pem i ∉ rest := by
          intro hmemF
          apply hpid
          have : (finalOf outcome pem i).id = p.id := by rw [finalOf_id, hid]
          exact this ▸ List.mem_map_of_mem (fun i => i.id) hmemF
        simp only [if_pos hid]
        rw [if_neg hfin_notin, if_pos (hip ▸ List.mem_cons_self p rest)]
      · have hnp : i ≠ p := fun hEq => hid (congrArg BatchImage.id hEq)
        simp only [if_neg hid]
        by_cases hir : i ∈ rest
        · rw [if_pos hir, if_pos (List.mem_cons_of_mem p hir)]
        · rw [if_neg hir, if_neg (by
            intro hmemC
            rcases List.mem_cons.mp hmemC with hEq | hR
            · exact hnp hEq
            · exact hir hR)]

/-- **C4.** With `M` pending items: if `credits < M` the run is rejected in
full — the state (hence every item status and the credit counter) is
unchanged and no event (no deduction, no dispatch) is emitted; if
`credits ≥ M`, exactly `M` credits are deducted and, when `M ≥ 1`, the
deduction is the first emitted event, before any item dispatch. -/
theorem batch_insufficient_credits_rejected (op : String) (outcome : Nat → Outcome ImageFile)
    (pem : String → String) (st : BatchState) (hproc : st.isProcessing = false) :
    (st.credits < ((st.images.filter fun i => i.status = BatchImageStatus.pending).length : Int) →
       handleApply op outcome pem st = (st, [])) ∧
    (((st.images.filter fun i => i.status = BatchImageStatus.pending).length : Int) ≤ st.credits →
       (handleApply op outcome pem st).1.credits
         = st.credits
           - ((st.images.filter fun i => i.status = BatchImageStatus.pending).length : Int) ∧
       (1 ≤ (st.images.filter fun i => i.status = BatchImageStatus.pending).length →
          ∃ rest, (handleApply op outcome pem st).2
            = BEvent.deduct
                (st.images.filter fun i => i.status = BatchImageStatus.pending).length
              :: rest)) := by
  simp only [handleApply, hproc, if_neg Bool.false_ne_true]
  by_cases h0 : (st.images.filter fun i => i.status = BatchImageStatus.pending).length = 0
  · rw [if_pos h0]
    refine ⟨fun _ => rfl, fun _ => ⟨?_, fun h1 => absurd h1 (by omega)⟩⟩
    rw [h0]
    show st.credits = st.credits - ((0 : Nat) : Int)
    omega
  · rw [if_neg h0]
    by_cases hc : st.credits
        < ((st.images.filter fun i => i.status = BatchImageStatus.pending).length : Int)
    · rw [if_pos hc]
      exact ⟨fun _ => rfl, fun hle => absurd hc (by omega)⟩
    · rw [if_neg hc]
      refine ⟨fun hlt => absurd hlt hc, fun hle => ?_⟩
      by_cases hop : op ∈ batchServiceOps
      · rw [if_pos hop]
        refine ⟨?_, fun _ => ⟨_, rfl⟩⟩
        show max 0 (st.credits - _) = _
        omega
      · rw [if_neg hop]
        refine ⟨?_, fun _ => ⟨[], rfl⟩⟩
        show max 0 (st.credits - _) = _
        omega

def sampleBatchImage (n : Nat) : BatchImage :=
  { id := n, original := ⟨s!"img{n}.png", "image/png"⟩, processed := none,
    status := BatchImageStatus.pending, error := none }

def sampleBatchState : BatchState :=
  { images := [sampleBatchImage 0, sampleBatchImage 1, sampleBatchImage 2],
    credits := 2, isProcessing := false }

/-- Witness for `batch_insufficient_credits_rejected`: three pending items
with only two credits are rejected wholesale. -/
theorem batch_insufficient_credits_rejected_witness :
    handleApply "filter" (fun _ => Outcome.success sampleX) id sampleBatchState
      = (sampleBatchState, []) :=
  (batch_insufficient_credits_rejected "filter" (fun _ => Outcome.success sampleX) id
      sampleBatchState rfl).1 (by decide)

/-- **C5.** A batch run over the pending items (with a recognized operation,
enough credits, unique item ids, and no item stuck in `processing`): the
resulting image list replaces exactly the items that were pending by their
terminal record — `error` with the parsed message of that item's own failure,
`done` with the processed file on success — and leaves every other item
untouched; afterwards no item is `pending` or `processing`; and the emitted
events are the up-front deduction followed by one dispatch per pending item
in array order. -/
theorem batch_partial_failure_tolerated (op : String) (outcome : Nat → Outcome ImageFile)
    (pem : String → String) (st : BatchState)
    (hop : op ∈ batchServiceOps)
    (hproc : st.isProcessing = false)
    (hcred : ((st.images.filter fun i => i.status = BatchImageStatus.pending).length : Int)
        ≤ st.credits)
    (hnodup : (st.images.map fun i => i.id).Nodup)
    (hstat : ∀ i ∈ st.images, i.status ≠ BatchImageStatus.processing) :
    (handleApply op outcome pem st).1.images
      = st.images.map
          (fun i => if i.status = BatchImageStatus.pending then finalOf outcome pem i else i) ∧
    (∀ j ∈ (handleApply op outcome pem st).1.images,
        j.status ≠ BatchImageStatus.pending ∧ j.status ≠ BatchImageStatus.processing) ∧
    (1 ≤ (st.images.filter fun i => i.status = BatchImageStatus.pending).length →
       (handleApply op outcome pem st).2
         = BEvent.deduct (st.images.filter fun i => i.status = BatchImageStatus.pending).length
             :: (st.images.filter fun i => i.status = BatchImageStatus.pending).map
                  (fun p => BEvent.dispatchItem p.id)) := by
  have hres : (handleApply op outcome pem st).1.images
      = st.images.map
          (fun i => if i.status = BatchImageStatus.pending then finalOf outcome pem i else i) ∧
      (1 ≤ (st.images.filter fun i => i.status = BatchImageStatus.pending).length →
        (handleApply op outcome pem st).2
         = BEvent.deduct (st.images.filter fun i => i.status = BatchImageStatus.pending).length
             :: (st.images.filter fun i => i.status = BatchImageStatus.pending).map
                  (fun p => BEvent.dispatchItem p.id)) := by
    simp only [handleApply, hproc, if_neg Bool.false_ne_true]
    by_cases h0 : (st.images.filter fun i => i.status = BatchImageStatus.pending).length = 0
    · rw [if_pos h0]
      constructor
      · show st.images = _
        have hnone : ∀ i ∈ st.images, i.status ≠ BatchImageStatus.pending := by
          intro i hi hpend
          have : i ∈ st.images.filter fun i => i.status = BatchImageStatus.pending := by
            rw [List.mem_filter]
            exact ⟨hi, by rw [hpend]; rfl⟩
          rw [List.length_eq_zero] at h0
          rw [h0] at this
          exact List.not_mem_nil i this
        have : (st.images.map
            fun i => if i.status = BatchImageStatus.pending then finalOf outcome pem i else i)
            = st.images.map id := by
          apply List.map_congr_left
          intro i hi
          rw [if_neg (hnone i hi)]
          rfl
        rw [this, List.map_id]
      · intro h1
        omega
    · rw [if_neg h0, if_neg (by omega), if_pos hop]
      have hfilter_sub : ∀ p ∈ st.images.filter fun i => i.status = BatchImageStatus.pending,
          p ∈ st.images := fun p hp => List.mem_of_mem_filter hp
      have hfilter_nodup :
          ((st.images.filter fun i => i.status = BatchImageStatus.pending).map
            fun i => i.id).Nodup :=
        List.Nodup.sublist (List.Sublist.map _ (List.filter_sublist st.images)) hnodup
      have hrb := runBatch_result outcome pem
        (st.images.filter fun i => i.status = BatchImageStatus.pending) st.images
        hfilter_sub hnodup hfilter_nodup
      constructor
      · show (runBatch outcome pem _ st.images).1 = _
        rw [hrb]
        apply List.map_congr_left
        intro i hi
        by_cases hpend : i.status = BatchImageStatus.pending
        · rw [if_pos hpend,
            if_pos (by rw [List.mem_filter]; exact ⟨hi, by rw [hpend]; rfl⟩)]
        · rw [if_neg hpend, if_neg (fun hmemF => hpend (by
            have := (List.mem_filter.mp hmemF).2
            exact of_decide_eq_true this))]
      · intro _
        show BEvent.deduct _ :: (runBatch outcome pem _ st.images).2 = _
        rw [runBatch_events]
  refine ⟨hres.1, ?_, hres.2⟩
  intro j hj
  rw [hres.1] at hj
  rcases List.mem_map.mp hj with ⟨i, hi, hij⟩
  by_cases hpend : i.status = BatchImageStatus.pending
  · rw [if_pos hpend] at hij
    rcases finalOf_status outcome pem i with hs | hs <;> rw [← hij] <;> rw [hs] <;>
      exact ⟨(by intro h; cases h), (by intro h; cases h)⟩
  · rw [if_neg hpend] at hij
    rw [← hij]
    exact ⟨hpend, hstat i hi⟩

def sampleBatchOutcome : Nat → Outcome ImageFile :=
  fun n => if n = 1 then Outcome.failure "blocked" else Outcome.success sampleX

def sampleBatchStateRich : BatchState :=
  { images := [sampleBatchImage 0, sampleBatchImage 1, sampleBatchImage 2],
    credits := 5, isProcessing := false }

/-- Witness for `batch_partial_failure_tolerated`: of three pending items the
second fails; it alone is marked `error` while the others are `done`, nothing
stays `pending`/`processing`, and the events are the deduction of 3 followed
by the three dispatches in order. -/
theorem batch_partial_failure_tolerated_witness :
    (handleApply "adjust" sampleBatchOutcome id sampleBatchStateRich).1.images
      = sampleBatchStateRich.images.map
          (fun i => if i.status = BatchImageStatus.pending
            then finalOf sampleBatchOutcome id i else i) ∧
    (∀ j ∈ (handleApply "adjust" sampleBatchOutcome id sampleBatchStateRich).1.images,
        j.status ≠ BatchImageStatus.pending ∧ j.status ≠ BatchImageStatus.processing) ∧
    (handleApply "adjust" sampleBatchOutcome id sampleBatchStateRich).2
      = BEvent.deduct 3 :: [BEvent.dispatchItem 0, BEvent.dispatchItem 1, BEvent.dispatchItem 2] := by
  have h := batch_partial_failure_tolerated "adjust" sampleBatchOutcome id sampleBatchStateRich
    (by decide) rfl (by decide) (by decide) (by decide)
  refine ⟨h.1, h.2.1, ?_⟩
  have := h.2.2 (by decide)
  rw [this]
  decide

/-! ### Remote edit gateway geometry (`generateEditedImage`,
`src/services/geminiService.ts`)

The function builds the instruction text by appending one of three
"Area of Focus" blocks.  We embed that choice and the numbers it interpolates.
Percentages are modelled as exact rationals `coord / dimension * 100`; the
source additionally formats them with `toFixed(1)` for display inside the
prompt string, which is presentation only and not modelled.  JavaScript
truthiness of `selection?.width && selection?.height` is `width ≠ 0 ∧
height ≠ 0` (for the integral pixel values the app produces). -/

structure Dims where
  width : Int
  height : Int
deriving DecidableEq, Repr

structure SelectionRect where
  x : Int
  y : Int
  width : Int
  height : Int
deriving DecidableEq, Repr

structure HotspotPt where
  x : Int
  y : Int
deriving DecidableEq, Repr

/-- The geometry block embedded into the instruction: a percentage rectangle,
a percentage focus point with radius, or none (global edit). -/
inductive GeometrySpec where
  | region (xPct yPct widthPct heightPct : ℚ)
  | focusPoint (xPct yPct radiusPct : ℚ)
  | global
deriving DecidableEq, Repr

/-- The geometry branch of `generateEditedImage`:
`if (selection?.width && selection?.height && imageDimensions) {...region...}
else if (hotspot && imageDimensions) {...hotspot...} else {...global...}`,
with each percentage computed as `coordinate / dimension * 100` (the radius
percentage is relative to the width). -/
def buildEditGeometry (hotspot : Option HotspotPt) (radius : Int)
    (selection : Option SelectionRect) (imageDimensions : Option Dims) : GeometrySpec :=
  match selection, imageDimensions with
  | some sel, some d =>
      if sel.width ≠ 0 ∧ sel.height ≠ 0 then
        GeometrySpec.region ((sel.x : ℚ) / (d.width : ℚ) * 100)
          ((sel.y : ℚ) / (d.height : ℚ) * 100)
          ((sel.width : ℚ) / (d.width : ℚ) * 100)
          ((sel.height : ℚ) / (d.height : ℚ) * 100)
      else
        match hotspot with
        | some pt =>
            GeometrySpec.focusPoint ((pt.x : ℚ) / (d.width : ℚ) * 100)
              ((pt.y : ℚ) / (d.height : ℚ) * 100)
              ((radius : ℚ) / (d.width : ℚ) * 100)
        | none => GeometrySpec.global
  | _, some d =>
      match hotspot with
      | some pt =>
          GeometrySpec.focusPoint ((pt.x : ℚ) / (d.width : ℚ) * 100)
            ((pt.y : ℚ) / (d.height : ℚ) * 100)
            ((radius : ℚ) / (d.width : ℚ) * 100)
      | none => GeometrySpec.global
  | _, none => GeometrySpec.global

/-- **C7.** With known native dimensions, a supplied (non-degenerate)
selection is encoded as a percentage rectangle and a supplied hotspot as a
percentage focus point; with unknown dimensions (`null`), the geometry is
omitted and the request is a global edit — `buildEditGeometry` is total, so
no error is raised. -/
theorem geometry_encoded_as_percentages (sel : SelectionRect) (d : Dims) (pt : HotspotPt)
    (radius : Int) (hs : Option HotspotPt) (selOpt : Option SelectionRect) :
    (sel.width ≠ 0 → sel.height ≠ 0 →
       buildEditGeometry hs radius (some sel) (some d)
         = GeometrySpec.region ((sel.x : ℚ) / (d.width : ℚ) * 100)
             ((sel.y : ℚ) / (d.height : ℚ) * 100)
             ((sel.width : ℚ) / (d.width : ℚ) * 100)
             ((sel.height : ℚ) / (d.height : ℚ) * 100)) ∧
    (buildEditGeometry (some pt) radius none (some d)
       = GeometrySpec.focusPoint ((pt.x : ℚ) / (d.width : ℚ) * 100)
           ((pt.y : ℚ) / (d.height : ℚ) * 100)
           ((radius : ℚ) / (d.width : ℚ) * 100)) ∧
    buildEditGeometry hs radius selOpt none = GeometrySpec.global := by
  refine ⟨?_, rfl, ?_⟩
  · intro hw hh
    show (if sel.width ≠ 0 ∧ sel.height ≠ 0 then _ else _) = _
    rw [if_pos ⟨hw, hh⟩]
  · cases selOpt <;> rfl

/-- Witness for `geometry_encoded_as_percentages` on a concrete selection,
hotspot and dimension set. -/
theorem geometry_encoded_as_percentages_witness :
    (buildEditGeometry none 50 (some ⟨10, 20, 30, 40⟩) (some ⟨200, 100⟩)
       = GeometrySpec.region ((10 : ℚ) / 200 * 100) ((20 : ℚ) / 100 * 100)
           ((30 : ℚ) / 200 * 100) ((40 : ℚ) / 100 * 100)) ∧
    (buildEditGeometry (some ⟨60, 80⟩) 50 none (some ⟨200, 100⟩)
       = GeometrySpec.focusPoint ((60 : ℚ) / 200 * 100) ((80 : ℚ) / 100 * 100)
           ((50 : ℚ) / 200 * 100)) ∧
    buildEditGeometry (some ⟨60, 80⟩) 50 (some ⟨10, 20, 30, 40⟩) none = GeometrySpec.global :=
  ⟨(geometry_encoded_as_percentages ⟨10, 20, 30, 40⟩ ⟨200, 100⟩ ⟨60, 80⟩ 50 none
      (some ⟨10, 20, 30, 40⟩)).1 (by decide) (by decide),
   (geometry_encoded_as_percentages ⟨10, 20, 30, 40⟩ ⟨200, 100⟩ ⟨60, 80⟩ 50 (some ⟨60, 80⟩)
      (some ⟨10, 20, 30, 40⟩)).2.1,
   (geometry_encoded_as_percentages ⟨10, 20, 30, 40⟩ ⟨200, 100⟩ ⟨60, 80⟩ 50 (some ⟨60, 80⟩)
      (some ⟨10, 20, 30, 40⟩)).2.2⟩

/-! ### Text-shadow dispatch (`applyTextToCanvas`, `src/App.tsx`)

The function always resets the canvas shadow parameters and the fill style
first, then renders one of: a plain fill (for `!shadow || shadow === 'none'`
and for an unmatched drop-shadow string), a four-direction outline (for a
string containing a comma — the source's "heuristic for outline preset"),
or a parametrized drop shadow when the string matches
`/(-?\d+(?:\.\d+)?px)\s+(-?\d+(?:\.\d+)?px)\s+(-?\d+(?:\.\d+)?px)\s+(rgba?\(.+?\))/`.
The regex is embedded below as an executable matcher; `parseInt(g, 10)` on a
matched `px` group keeps the sign and the integral digits and drops any
fraction, which the matcher reproduces. -/

/-- The render performed on the canvas: fill colors and shadow parameters
actually applied. -/
inductive TextRender where
  | plainFill (color : String)
  | outlineFill (outlineColor : String) (outlineWidth : Int) (color : String)
  | dropShadowFill (offsetX offsetY blur : Int) (shadowColor : String) (color : String)
deriving DecidableEq, Repr

/-- JavaScript `\s` restricted to the ASCII whitespace that can occur in the
app's shadow strings. -/
def jsSpace (c : Char) : Bool :=
  c == ' ' || c == '\t' || c == '\n' || c == '\r' || c == '\x0b' || c == '\x0c'

def digitVal (c : Char) : Nat := c.toNat - '0'.toNat

/-- Match `-?\d+(?:\.\d+)?px` at the head of `l`; returns the `parseInt`
value of the matched group (sign and integral digits) and the rest of the
input.  The regex needs no backtracking here: after the greedy `\d+` the next
character can be neither `.` nor `p`, so a shorter digit run never helps. -/
def matchPxNumber (l : List Char) : Option (Int × List Char) :=
  let signed := match l with
    | '-' :: rest => (true, rest)
    | _ => (false, l)
  let neg := signed.1
  let l1 := signed.2
  let ds := l1.takeWhile Char.isDigit
  let l2 := l1.dropWhile Char.isDigit
  if ds.isEmpty then none
  else
    let n : Int := (ds.foldl (fun acc c => acc * 10 + digitVal c) 0 : Nat)
    let v : Int := if neg then -n else n
    match l2 with
    | '.' :: l3 =>
        let fs := l3.takeWhile Char.isDigit
        let l4 := l3.dropWhile Char.isDigit
        if fs.isEmpty then none
        else
          match l4 with
          | 'p' :: 'x' :: l5 => some (v, l5)
          | _ => none
    | 'p' :: 'x' :: l5 => some (v, l5)
    | _ => none

/-- Match `\s+` at the head of `l`. -/
def matchWs (l : List Char) : Option (List Char) :=
  let ws := l.takeWhile jsSpace
  let rest := l.dropWhile jsSpace
  if ws.isEmpty then none else some rest

/-- The lazy `.+?\)` tail: scan for the first `)` after at least one
`.`-matchable (non-newline) character. -/
def lazyBodyAux : List Char → List Char → Option (List Char × List Char)
  | _, [] => none
  | acc, ')' :: r => some (acc.reverse, r)
  | acc, c :: r => if c = '\n' ∨ c = '\r' then none else lazyBodyAux (c :: acc) r

/-- Match `rgba?\(.+?\)` at the head of `l`, returning the matched text. -/
def matchRgbColor (l : List Char) : Option (String × List Char) :=
  match l with
  | 'r' :: 'g' :: 'b' :: rest =>
      let opt := match rest with
        | 'a' :: r => (true, r)
        | _ => (false, rest)
      let hasA := opt.1
      let rest1 := opt.2
      match rest1 with
      | '(' :: body =>
          match body with
          | [] => none
          | c :: r =>
              if c = '\n' ∨ c = '\r' then none
              else
                match lazyBodyAux [c] r with
                | some (inner, rest2) =>
                    some (String.mk (['r', 'g', 'b']
                      ++ (if hasA then ['a'] else []) ++ '(' :: (inner ++ [')'])), rest2)
                | none => none
      | _ => none
  | _ => none

/-- Match the full drop-shadow pattern at the head of `l`. -/
def matchDropShadowAt (l : List Char) : Option (Int × Int × Int × String) := do
  let (n1, l1) ← matchPxNumber l
  let l2 ← matchWs l1
  let (n2, l3) ← matchPxNumber l2
  let l4 ← matchWs l3
  let (n3, l5) ← matchPxNumber l4
  let l6 ← matchWs l5
  let (color, _) ← matchRgbColor l6
  pure (n1, n2, n3, color)

/-- Unanchored leftmost search, as `String.prototype.match` performs. -/
def searchDropShadow : List Char → Option (Int × Int × Int × String)
  | [] => none
  | c :: rest =>
      match matchDropShadowAt (c :: rest) with
      | some r => some r
      | none => searchDropShadow rest

def dropShadowMatch (s : String) : Option (Int × Int × Int × String) :=
  searchDropShadow s.toList

/-- `shadow.includes(',')`, the source's "heuristic for outline preset with
multiple shadows". -/
def containsComma (s : String) : Bool := s.toList.contains ','

/-- `applyTextToCanvas` from `src/App.tsx`, reduced to the render it performs:
plain fill for falsy/`'none'` shadow; outline for a comma-bearing string;
drop shadow when the regex matches; plain fill as the regex-failure
fallback. -/
def applyTextToCanvas (color shadow : String) : TextRender :=
  if shadow = "" ∨ shadow = "none" then TextRender.plainFill color
  else if containsComma shadow then TextRender.outlineFill "#000" 2 color
  else
    match dropShadowMatch shadow with
    | some (ox, oy, blur, c) => TextRender.dropShadowFill ox oy blur c color
    | none => TextRender.plainFill color

/-- Sanity check that the embedded matcher accepts a genuine comma-free
drop-shadow string with the expected `parseInt` group values. -/
theorem dropShadowMatch_sample :
    dropShadowMatch "2px 3.5px 4px rgba(0 0 0 / 0.8)"
      = some (2, 3, 4, "rgba(0 0 0 / 0.8)") := by decide

/-- **C8.** A `shadowSpec` of `'none'` (or empty) renders a plain fill with no
shadow parameters, and any shadow string that is neither a recognized
outline preset (a comma-bearing string) nor a recognized drop shadow (a
match of the source's regex) falls back to the same plain, unshadowed fill —
`applyTextToCanvas` is total, so nothing is thrown. -/
theorem unrecognized_shadow_falls_back (color shadow : String) :
    (shadow = "" ∨ shadow = "none" → applyTextToCanvas color shadow = TextRender.plainFill color) ∧
    (shadow ≠ "" → shadow ≠ "none" → containsComma shadow = false →
       dropShadowMatch shadow = none →
       applyTextToCanvas color shadow = TextRender.plainFill color) := by
  constructor
  · intro h
    unfold applyTextToCanvas
    rw [if_pos h]
  · intro h1 h2 h3 h4
    unfold applyTextToCanvas
    rw [if_neg (by rintro (h | h); exact h1 h; exact h2 h)]
    rw [if_neg (by rw [h3]; exact Bool.false_ne_true)]
    rw [h4]

/-- Witness for `unrecognized_shadow_falls_back`: the unrecognized shadow
string "glow" renders as a plain fill, as does "none". -/
theorem unrecognized_shadow_falls_back_witness :
    applyTextToCanvas "#FFFFFF" "none" = TextRender.plainFill "#FFFFFF" ∧
    applyTextToCanvas "#FFFFFF" "glow" = TextRender.plainFill "#FFFFFF" :=
  ⟨(unrecognized_shadow_falls_back "#FFFFFF" "none").1 (Or.inr rfl),
   (unrecognized_shadow_falls_back "#FFFFFF" "glow").2 (by decide) (by decide)
     (by decide) (by decide)⟩

/-! ### Voice-command validation (`interpretVoiceCommand`,
`src/services/geminiService.ts`)

After parsing the model's JSON reply into `{tool, prompt}`, the function
checks the tool name against its `validTools` array and otherwise returns
`{ tool: 'unknown', prompt: transcribedText }`.  (Note the array omits
`'crop'` even though the `ParsedCommand` type mentions it.) -/

structure ParsedCommand where
  tool : String
  prompt : String
deriving DecidableEq, Repr

/-- `validTools` from `interpretVoiceCommand`. -/
def validTools : List String :=
  ["retouch", "erase", "filter", "adjust", "colorize", "background", "upscale",
   "studio", "social", "undo", "redo", "download", "unknown"]

/-- The "Basic validation" step of `interpretVoiceCommand`:
`if (validTools.includes(parsedResult.tool)) return parsedResult;
else return { tool: 'unknown', prompt: transcribedText };`. -/
def validateParsedCommand (transcribedText : String) (parsedResult : ParsedCommand) :
    ParsedCommand :=
  if validTools.contains parsedResult.tool then parsedResult
  else { tool := "unknown", prompt := transcribedText }

/-- **C9.** A parsed tool name outside the fixed known set
`{retouch, erase, filter, adjust, colorize, background, upscale, studio,
social, undo, redo, download, unknown}` (which is exactly `validTools`) is
coerced to the command `{ tool: 'unknown', prompt: transcript }` with the
original transcript preserved verbatim. -/
theorem out_of_vocabulary_tool_coerced (transcript : String) (parsedResult : ParsedCommand)
    (h : parsedResult.tool ∉ validTools) :
    validateParsedCommand transcript parsedResult
      = { tool := "unknown", prompt := transcript } := by
  unfold validateParsedCommand
  rw [if_neg]
  rw [show validTools.contains parsedResult.tool = false by simpa using h]
  exact Bool.false_ne_true

/-- Witness for `out_of_vocabulary_tool_coerced`: the tool name "crop"
(absent from `validTools`) is coerced and the transcript kept. -/
theorem out_of_vocabulary_tool_coerced_witness :
    validateParsedCommand "crop the photo" ⟨"crop", "the photo"⟩
      = ({ tool := "unknown", prompt := "crop the photo" } : ParsedCommand) :=
  out_of_vocabulary_tool_coerced "crop the photo" ⟨"crop", "the photo"⟩ (by decide)

/-! ### Upload gate (`resetAndLoadImage`, `src/App.tsx`)

Only the state components relevant to the claims are modelled
(credits, history with its cursor, and the error banner); the source resets
further UI-only fields (active tool, selections, social text, ...) in the
same supported branch and touches none of them in the rejection branch. -/

/-- `SUPPORTED_MIME_TYPES` from `src/App.tsx`. -/
def SUPPORTED_MIME_TYPES : List String :=
  ["image/jpeg", "image/png", "image/webp", "image/gif"]

/-- `INITIAL_CREDITS` from `src/App.tsx`. -/
def INITIAL_CREDITS : Int := 25

/-- `resetAndLoadImage` from `src/App.tsx`: an unsupported MIME type only sets
the error banner and returns before any reset; otherwise the history becomes
the single-entry history of the new file, the cursor 0, the error is cleared
and the credits are refilled. -/
def resetAndLoadImage (file : ImageFile) (s : AppSingleState) : AppSingleState :=
  if ¬ SUPPORTED_MIME_TYPES.contains file.mime then
    { s with errorMsg := some ("Unsupported file type (" ++ file.mime
        ++ "). Please upload a JPEG, PNG, or WEBP.") }
  else
    { errorMsg := none,
      history := { entries := [file], cursor := 0 },
      credits := INITIAL_CREDITS }

/-- **C10.** Uploading a file whose MIME type is not in
`{image/jpeg, image/png, image/webp, image/gif}` is rejected before any state
reset: history (entries and cursor) and credits are unchanged and only the
error banner is set. -/
theorem unsupported_upload_rejected (file : ImageFile) (s : AppSingleState)
    (h : file.mime ∉ SUPPORTED_MIME_TYPES) :
    (resetAndLoadImage file s).history = s.history ∧
    (resetAndLoadImage file s).credits = s.credits ∧
    (resetAndLoadImage file s).errorMsg
      = some ("Unsupported file type (" ++ file.mime
          ++ "). Please upload a JPEG, PNG, or WEBP.") := by
  unfold resetAndLoadImage
  rw [if_pos]
  · exact ⟨rfl, rfl, rfl⟩
  · rw [show SUPPORTED_MIME_TYPES.contains file.mime = false by simpa using h]
    exact Bool.false_ne_true

/-- Witness for `unsupported_upload_rejected`: a PDF upload against a live
session leaves history and credits alone. -/
theorem unsupported_upload_rejected_witness :
    (resetAndLoadImage ⟨"doc.pdf", "application/pdf"⟩ ⟨7, sampleHistory, none⟩).history
        = sampleHistory ∧
    (resetAndLoadImage ⟨"doc.pdf", "application/pdf"⟩ ⟨7, sampleHistory, none⟩).credits = 7 ∧
    (resetAndLoadImage ⟨"doc.pdf", "application/pdf"⟩ ⟨7, sampleHistory, none⟩).errorMsg
      = some ("Unsupported file type (" ++ "application/pdf"
          ++ "). Please upload a JPEG, PNG, or WEBP.") :=
  unsupported_upload_rejected ⟨"doc.pdf", "application/pdf"⟩ ⟨7, sampleHistory, none⟩ (by decide)

end NanoBanana
